import Mathlib

/-!
Verification of the signature-order calculator of the `section-binding`
repository.

The program's core is `calculate_signature_order` in
`src/pdf_section_binding/core.py`: it validates the signature size, pads the
page list `1..total_pages` with blanks up to the next multiple of
`signature_size`, emits for every signature the outside-in sheet pairs
(back face first, front face second), and finally drops the blanks.
A second, legacy copy of the same loop lives in `src/section_binding.py`
without the validation; it is embedded separately as
`SectionBinding.calculate_signature_order`.

Python integers are embedded as `Int`; Python `//` and `%` are floor
division `Int.fdiv` and `Int.fmod`; the `None` blank marker becomes `none`
in `Option Int`; raising `ValueError` becomes returning `Except.error`.
-/

/-- Python `range(start, stop, step)` for a positive `step`:
the elements `start, start + step, ...` strictly below `stop`. -/
def pyRange (start stop step : Int) : List Int :=
  (List.range ((stop - start + step - 1).fdiv step).toNat).map
    (fun k : ℕ => start + step * (k : Int))

/-- Padding computation
`padded_pages = ((total_pages + signature_size - 1) // signature_size) *
signature_size` (core.py, lines 57-59). -/
def padded_pages (total_pages signature_size : Int) : Int :=
  ((total_pages + signature_size - 1).fdiv signature_size) * signature_size

/-- The `pages` list after padding: `list(range(1, total_pages + 1))` followed
by `None` entries until its length reaches `padded_pages`
(core.py, lines 62-66). -/
def build_pages (total_pages signature_size : Int) : List (Option Int) :=
  let real := (pyRange 1 (total_pages + 1) 1).map some
  real ++
    List.replicate
      (padded_pages total_pages signature_size - (real.length : Int)).toNat none

/-- The sheet counter `range(signature_size // 2)` (core.py, line 76). -/
def sheet_indices (signature_size : Int) : List Int :=
  pyRange 0 (signature_size.fdiv 2) 1

/-- The `signature_order` list built for one signature
(core.py, lines 74-84): for each sheet index `i`, the page at `right_page`
is emitted first, then the page at `left_page`, each under its bounds guard. -/
def signature_order_for (pages : List (Option Int))
    (signature_size signature_start : Int) : List (Option Int) :=
  (sheet_indices signature_size).flatMap (fun i =>
    let left_page := signature_start + i
    let right_page := signature_start + signature_size - 1 - i
    (if right_page < (pages.length : Int) then [pages.getD right_page.toNat none]
     else []) ++
    (if left_page < (pages.length : Int) then [pages.getD left_page.toNat none]
     else []))

/-- The loop header `range(0, padded_pages, signature_size)`
(core.py, line 72). -/
def signature_starts (total_pages signature_size : Int) : List Int :=
  pyRange 0 (padded_pages total_pages signature_size) signature_size

/-- The `reordered_pages` accumulator after the outer loop
(core.py, lines 69-86). -/
def reordered_pages (total_pages signature_size : Int) : List (Option Int) :=
  (signature_starts total_pages signature_size).flatMap
    (fun signature_start =>
      signature_order_for (build_pages total_pages signature_size)
        signature_size signature_start)

/-- Function `calculate_signature_order` from `src/pdf_section_binding/core.py`
(lines 31-88): validation of `signature_size`, then the reordering
computation, then `[p for p in reordered_pages if p is not None]`. -/
def calculate_signature_order (total_pages signature_size : Int) :
    Except String (List Int) :=
  if signature_size.fmod 4 ≠ 0 then
    .error "Signature size must be a multiple of 4"
  else if signature_size < 4 then
    .error "Signature size must be at least 4"
  else
    .ok ((reordered_pages total_pages signature_size).filterMap id)

namespace SectionBinding

/-- The legacy copy of `calculate_signature_order` from
`src/section_binding.py` (lines 16-62): the same padding and reordering
loop, with no validation of `signature_size`. -/
def calculate_signature_order (total_pages signature_size : Int) : List Int :=
  let padded :=
    ((total_pages + signature_size - 1).fdiv signature_size) * signature_size
  let real := (pyRange 1 (total_pages + 1) 1).map (some : Int → Option Int)
  let pages := real ++ List.replicate (padded - (real.length : Int)).toNat none
  let reordered := (pyRange 0 padded signature_size).flatMap
    (fun signature_start =>
      (pyRange 0 (signature_size.fdiv 2) 1).flatMap (fun i =>
        let left_page := signature_start + i
        let right_page := signature_start + signature_size - 1 - i
        (if right_page < (pages.length : Int) then
          [pages.getD right_page.toNat none]
         else []) ++
        (if left_page < (pages.length : Int) then
          [pages.getD left_page.toNat none]
         else [])))
  reordered.filterMap id

end SectionBinding

deriving instance DecidableEq for Except

example : calculate_signature_order 4 4 = .ok [4, 1, 3, 2] := by decide

example : pyRange 1 6 1 = [1, 2, 3, 4, 5] := by decide
example : pyRange 0 12 4 = [0, 4, 8] := by decide
example : pyRange 0 (-3) 4 = [] := by decide
example : calculate_signature_order 8 8 = .ok [8, 1, 7, 2, 6, 3, 5, 4] := by
  decide
example : calculate_signature_order 12 8 =
    .ok [8, 1, 7, 2, 6, 3, 5, 4, 9, 10, 11, 12] := by decide
example : calculate_signature_order 6 4 = .ok [4, 1, 3, 2, 5, 6] := by decide
example : calculate_signature_order 3 4 = .ok [1, 3, 2] := by decide
example : calculate_signature_order 7 8 = .ok [1, 7, 2, 6, 3, 5, 4] := by
  decide
example : calculate_signature_order 2 40 = .ok [1, 2] := by decide
example : calculate_signature_order 0 4 = .ok [] := by decide
example : calculate_signature_order 1 4 = .ok [1] := by decide
example : calculate_signature_order (-5) 4 = .ok [] := by decide
example : calculate_signature_order 10 6 =
    .error "Signature size must be a multiple of 4" := by decide
example : calculate_signature_order 10 0 =
    .error "Signature size must be at least 4" := by decide
example : calculate_signature_order 10 (-4) =
    .error "Signature size must be at least 4" := by decide
example : calculate_signature_order 10 (-3) =
    .error "Signature size must be a multiple of 4" := by decide
example : SectionBinding.calculate_signature_order 10 4 =
    [4, 1, 3, 2, 8, 5, 7, 6, 9, 10] := by decide

/-! Natural-number model of the index traversal.

The loop body only ever touches the padded index range `0 ..< padded_pages`,
so the traversal is conveniently described by lists of natural indices:
`natSheet S b` is the index sequence one signature emits, `natAllIdx N S`
the whole traversal, and `pageAt T k` the content of slot `k` of the padded
page list (a real page for `k < T`, a blank otherwise). -/

/-- Index sequence emitted for the signature starting at slot `b`:
for each sheet `i`, the back slot `b + S - 1 - i`, then the front slot
`b + i`. -/
def natSheet (S b : ℕ) : List ℕ :=
  (List.range (S / 2)).flatMap (fun i => [b + S - 1 - i, b + i])

/-- Index traversal of all `N` signatures of width `S`. -/
def natAllIdx (N S : ℕ) : List ℕ :=
  (List.range N).flatMap (fun j => natSheet S (j * S))

/-- Content of slot `k` in the padded list of `T` real pages:
page `k + 1` when `k < T`, a blank otherwise. -/
def pageAt (T k : ℕ) : Option ℤ :=
  if k < T then some ((k : ℤ) + 1) else none

/-- Number of signatures: `⌈T / S⌉`. -/
def natSigCount (T S : ℕ) : ℕ := (T + S - 1) / S

/-- Padded page count: `⌈T / S⌉ * S`. -/
def natPadded (T S : ℕ) : ℕ := natSigCount T S * S

theorem flat_pairs_perm (h : ℕ) : ∀ (c d : ℕ), d + 1 = c + 2 * h →
    ((List.range h).flatMap (fun k => [d - k, c + k])).Perm
      (List.range' c (2 * h)) := by
  induction h with
  | zero => intro c d hd; simp
  | succ n ih =>
    intro c d hd
    rw [List.range_succ_eq_map, List.flatMap_cons, List.flatMap_map]
    have h2 : ((List.range n).flatMap fun a => [d - Nat.succ a, c + Nat.succ a])
        = (List.range n).flatMap fun a => [d - 1 - a, c + 1 + a] := by
      apply List.flatMap_congr
      intro a _
      have e1 : d - Nat.succ a = d - 1 - a := by omega
      have e2 : c + Nat.succ a = c + 1 + a := by omega
      rw [e1, e2]
    rw [h2]
    have e3 : d - 0 = d := by omega
    have e4 : c + 0 = c := by omega
    rw [e3, e4]
    have ihc := ih (c + 1) (d - 1) (by omega)
    have hR : 2 * (n + 1) = 2 * n + 1 + 1 := by omega
    rw [hR, List.range'_succ, List.range'_concat]
    have ha : c + 1 + 1 * (2 * n) = d := by omega
    rw [ha]
    exact (List.Perm.swap c d _).trans
      (((ihc.cons d).cons c).trans
        ((List.perm_append_singleton d _).symm.cons c))

theorem natSheet_perm (S b : ℕ) (hS : 2 ∣ S) :
    (natSheet S b).Perm (List.range' b S) := by
  obtain ⟨h, rfl⟩ := hS
  cases h with
  | zero => simp [natSheet]
  | succ m =>
    unfold natSheet
    have h2 : 2 * (m + 1) / 2 = m + 1 := by omega
    rw [h2]
    have key := flat_pairs_perm (m + 1) b (b + 2 * (m + 1) - 1) (by omega)
    have hfun : ((List.range (m + 1)).flatMap fun i =>
          [b + 2 * (m + 1) - 1 - i, b + i])
        = (List.range (m + 1)).flatMap fun k => [b + 2 * (m + 1) - 1 - k, b + k] :=
      rfl
    rw [hfun]
    exact key

theorem pyRange_one (a : ℤ) (n : ℕ) :
    pyRange a (a + n) 1 = (List.range n).map (fun k : ℕ => a + (k : ℤ)) := by
  unfold pyRange
  have h1 : a + ↑n - a + 1 - 1 = (n : ℤ) := by ring
  rw [h1, Int.fdiv_one, Int.toNat_ofNat]
  apply List.map_congr_left
  intro k _
  ring

theorem pyRange_mul (S N : ℕ) (hS : 0 < S) :
    pyRange 0 ((N * S : ℕ) : ℤ) (S : ℤ)
      = (List.range N).map (fun j => ((j * S : ℕ) : ℤ)) := by
  unfold pyRange
  have h1 : ((N * S : ℕ) : ℤ) - 0 + ↑S - 1 = ((N * S + S - 1 : ℕ) : ℤ) := by
    push_cast
    omega
  rw [h1, ← Int.ofNat_fdiv, Int.toNat_ofNat]
  have h2 : (N * S + S - 1) / S = N := by
    have h3 : N * S + S - 1 = S * N + (S - 1) := by
      have := Nat.mul_comm N S
      omega
    rw [h3, Nat.mul_add_div hS, Nat.div_eq_of_lt (by omega), Nat.add_zero]
  rw [h2]
  apply List.map_congr_left
  intro k _
  push_cast
  ring

theorem padded_pages_eq (T S : ℕ) (hS : 0 < S) :
    padded_pages (T : ℤ) (S : ℤ) = ((natPadded T S : ℕ) : ℤ) := by
  unfold padded_pages natPadded natSigCount
  have h1 : ((T : ℤ) + ↑S - 1) = ((T + S - 1 : ℕ) : ℤ) := by omega
  rw [h1, ← Int.ofNat_fdiv]
  push_cast
  ring

theorem le_natPadded (T S : ℕ) (hS : 0 < S) : T ≤ natPadded T S := by
  unfold natPadded natSigCount
  have h1 : S * ((T + S - 1) / S) + (T + S - 1) % S = T + S - 1 :=
    Nat.div_add_mod _ _
  have h2 : (T + S - 1) % S < S := Nat.mod_lt _ hS
  rw [Nat.mul_comm S] at h1
  omega

theorem build_pages_eq (T S : ℕ) (hS : 0 < S) :
    build_pages (T : ℤ) (S : ℤ) = (List.range (natPadded T S)).map (pageAt T) := by
  have hTP := le_natPadded T S hS
  obtain ⟨D, hD⟩ : ∃ D, natPadded T S = T + D := ⟨natPadded T S - T, by omega⟩
  simp only [build_pages]
  rw [show ((T : ℤ) + 1) = 1 + (T : ℤ) by ring, pyRange_one 1 T,
    padded_pages_eq T S hS, hD]
  rw [List.length_map, List.length_map, List.length_range]
  rw [List.range_add, List.map_append]
  have hcast : (((T + D : ℕ) : ℤ) - (T : ℤ)).toNat = D := by omega
  rw [hcast]
  congr 1
  · rw [List.map_map]
    apply List.map_congr_left
    intro a ha
    rw [List.mem_range] at ha
    simp only [Function.comp_apply, pageAt, if_pos ha]
    rw [Int.add_comm]
  · rw [List.map_map]
    have hnone : ((List.range D).map (pageAt T ∘ fun x => T + x))
        = (List.range D).map (fun _ => (none : Option ℤ)) := by
      apply List.map_congr_left
      intro a _
      simp only [Function.comp_apply, pageAt]
      rw [if_neg (by omega)]
    rw [hnone, List.map_const', List.length_range]

theorem sheet_indices_eq (S : ℕ) :
    sheet_indices (S : ℤ) = (List.range (S / 2)).map (fun i : ℕ => (i : ℤ)) := by
  unfold sheet_indices
  have h1 : ((S : ℤ)).fdiv 2 = ((S / 2 : ℕ) : ℤ) := by
    rw [show (2 : ℤ) = ((2 : ℕ) : ℤ) by norm_num, ← Int.ofNat_fdiv]
  rw [h1, show ((S / 2 : ℕ) : ℤ) = 0 + ((S / 2 : ℕ) : ℤ) by ring,
    pyRange_one 0 (S / 2)]
  apply List.map_congr_left
  intro k _
  ring

theorem signature_starts_eq (T S : ℕ) (hS : 0 < S) :
    signature_starts (T : ℤ) (S : ℤ)
      = (List.range (natSigCount T S)).map (fun j => ((j * S : ℕ) : ℤ)) := by
  unfold signature_starts
  rw [padded_pages_eq T S hS]
  exact pyRange_mul S (natSigCount T S) hS

theorem getD_map_range (P T k : ℕ) (hk : k < P) :
    ((List.range P).map (pageAt T)).getD k none = pageAt T k := by
  rw [List.getD_eq_getElem _ _ (by simpa using hk)]
  simp [List.getElem_map, List.getElem_range]

theorem signature_order_for_eq (T S b : ℕ) (hS : 0 < S) (hS2 : 2 ∣ S)
    (hb : b + S ≤ natPadded T S) :
    signature_order_for (build_pages (T : ℤ) (S : ℤ)) (S : ℤ) ((b : ℕ) : ℤ)
      = (natSheet S b).map (pageAt T) := by
  have hs2 : S / 2 * 2 = S := Nat.div_mul_cancel hS2
  simp only [signature_order_for, natSheet]
  rw [sheet_indices_eq S, List.flatMap_map, build_pages_eq T S hS,
    List.map_flatMap]
  apply List.flatMap_congr
  intro i hi
  rw [List.mem_range] at hi
  have hlen : ((List.range (natPadded T S)).map (pageAt T)).length
      = natPadded T S := by simp
  rw [hlen]
  have hr : ((b : ℤ) + (S : ℤ) - 1 - (i : ℤ)) = ((b + S - 1 - i : ℕ) : ℤ) := by
    omega
  have hl : ((b : ℤ) + (i : ℤ)) = ((b + i : ℕ) : ℤ) := by omega
  rw [hr, hl]
  have hrb : b + S - 1 - i < natPadded T S := by omega
  have hlb : b + i < natPadded T S := by omega
  rw [if_pos (by exact_mod_cast hrb), if_pos (by exact_mod_cast hlb)]
  rw [Int.toNat_ofNat, Int.toNat_ofNat, getD_map_range _ _ _ hrb,
    getD_map_range _ _ _ hlb]
  rfl

theorem reordered_pages_eq (T S : ℕ) (hS : 0 < S) (hS2 : 2 ∣ S) :
    reordered_pages (T : ℤ) (S : ℤ)
      = (natAllIdx (natSigCount T S) S).map (pageAt T) := by
  unfold reordered_pages natAllIdx
  rw [signature_starts_eq T S hS, List.flatMap_map, List.map_flatMap]
  apply List.flatMap_congr
  intro j hj
  rw [List.mem_range] at hj
  apply signature_order_for_eq T S (j * S) hS hS2
  have h1 : (j + 1) * S ≤ natSigCount T S * S :=
    Nat.mul_le_mul_right S hj
  unfold natPadded
  have h2 : (j + 1) * S = j * S + S := by ring
  omega

/-- Valid call, Nat-level normal form: the result is the blank filter of the
page contents along the index traversal. -/
theorem calc_ok (T S : ℕ) (h4 : S % 4 = 0) (hS : 0 < S) :
    calculate_signature_order (T : ℤ) (S : ℤ)
      = .ok ((natAllIdx (natSigCount T S) S).filterMap (pageAt T)) := by
  have hS4 : 4 ≤ S := by omega
  have hS2 : 2 ∣ S := Nat.dvd_of_mod_eq_zero (by omega)
  have hfmod : ((S : ℤ)).fmod 4 = 0 := by
    rw [show (4 : ℤ) = ((4 : ℕ) : ℤ) by norm_num, ← Int.ofNat_fmod, h4]
    rfl
  unfold calculate_signature_order
  rw [if_neg (by simp [hfmod]), if_neg (by exact_mod_cast Nat.not_lt.mpr hS4)]
  rw [reordered_pages_eq T S hS hS2, List.filterMap_map, Function.id_comp]

theorem natAllIdx_perm (N S : ℕ) (hS : 2 ∣ S) :
    (natAllIdx N S).Perm (List.range (N * S)) := by
  induction N with
  | zero => simp [natAllIdx]
  | succ n ih =>
    unfold natAllIdx at ih ⊢
    rw [List.range_succ, List.flatMap_append, List.flatMap_cons,
      List.flatMap_nil, List.append_nil]
    have h1 : (n + 1) * S = n * S + S := by ring
    rw [h1, List.range_add]
    refine ih.append ?_
    have h2 := natSheet_perm S (n * S) hS
    rwa [List.range'_eq_map_range] at h2

theorem filterMap_pageAt_range (T P : ℕ) (hTP : T ≤ P) :
    (List.range P).filterMap (pageAt T)
      = (List.range T).map (fun k : ℕ => (k : ℤ) + 1) := by
  obtain ⟨D, rfl⟩ : ∃ D, P = T + D := ⟨P - T, by omega⟩
  rw [List.range_add, List.filterMap_append]
  have h1 : (List.range T).filterMap (pageAt T)
      = (List.range T).map (fun k : ℕ => (k : ℤ) + 1) := by
    rw [← List.filterMap_eq_map (fun k : ℕ => (k : ℤ) + 1)]
    apply List.filterMap_congr
    intro x hx
    rw [List.mem_range] at hx
    simp [pageAt, hx]
  have h2 : ((List.range D).map (fun x => T + x)).filterMap (pageAt T)
      = [] := by
    rw [List.filterMap_map]
    rw [List.filterMap_eq_nil_iff]
    intro a _
    simp only [Function.comp_apply, pageAt]
    rw [if_neg (by omega)]
  rw [h1, h2, List.append_nil]

theorem int_valid_to_nat (t s : ℤ) (ht : 0 ≤ t) (hs : 0 < s)
    (h4 : s.fmod 4 = 0) :
    ∃ (T S : ℕ), t = (T : ℤ) ∧ s = (S : ℤ) ∧ S % 4 = 0 ∧ 0 < S := by
  refine ⟨t.toNat, s.toNat, (Int.toNat_of_nonneg ht).symm,
    (Int.toNat_of_nonneg (le_of_lt hs)).symm, ?_, by omega⟩
  have hcast := Int.ofNat_fmod s.toNat 4
  rw [show (((4 : ℕ) : ℤ)) = (4 : ℤ) by norm_num,
    Int.toNat_of_nonneg (le_of_lt hs), h4] at hcast
  exact_mod_cast hcast

theorem natSigCount_zero (S : ℕ) (hS : 0 < S) : natSigCount 0 S = 0 := by
  unfold natSigCount
  rw [Nat.zero_add, Nat.div_eq_of_lt (by omega)]

theorem natSigCount_exact (m S : ℕ) (hS : 0 < S) :
    natSigCount (m * S) S = m := by
  unfold natSigCount
  rw [Nat.add_sub_assoc (by omega : 1 ≤ S), Nat.mul_comm m S,
    Nat.mul_add_div hS, Nat.div_eq_of_lt (by omega), Nat.add_zero]

theorem natSigCount_inexact (T S : ℕ) (hS : 0 < S) (hr : T % S ≠ 0) :
    natSigCount T S = T / S + 1 := by
  unfold natSigCount
  have h1 : S * (T / S) + T % S = T := Nat.div_add_mod T S
  have h2 : T % S < S := Nat.mod_lt _ hS
  have h3 : T + S - 1 = S * (T / S) + (T % S + S - 1) := by omega
  rw [h3, Nat.mul_add_div hS,
    @Nat.div_eq_of_lt_le 1 S (T % S + S - 1) (by omega) (by omega)]

theorem natSheet_length (S b : ℕ) (hS2 : 2 ∣ S) :
    (natSheet S b).length = S := by
  have hs2 : S / 2 * 2 = S := Nat.div_mul_cancel hS2
  unfold natSheet
  rw [List.length_flatMap]
  rw [show List.map (List.length ∘ fun i => [b + S - 1 - i, b + i])
        (List.range (S / 2))
      = List.map (fun _ : ℕ => 2) (List.range (S / 2)) from
    List.map_congr_left fun a _ => rfl]
  rw [List.map_const', List.sum_replicate, List.length_range, smul_eq_mul]
  omega

theorem natSheet_shift (S b : ℕ) :
    natSheet S b = (natSheet S 0).map (fun k => b + k) := by
  unfold natSheet
  rw [List.map_flatMap]
  apply List.flatMap_congr
  intro i hi
  rw [List.mem_range] at hi
  have e1 : b + S - 1 - i = b + (0 + S - 1 - i) := by omega
  have e2 : b + i = b + (0 + i) := by omega
  rw [e1, e2]
  rfl

/-- The filtered output of a signature whose real pages all sit in its front
half: slots `b ..< b + r` are real, everything from `b + r` on is blank, and
`r ≤ S / 2`, so the back slot of every sheet is blank and the real pages come
out in ascending order. -/
theorem flatMap_singleton_map {α β : Type} (f : α → β) (l : List α) :
    (l.flatMap fun a => [f a]) = l.map f := by
  induction l with
  | nil => rfl
  | cons x xs ih => rw [List.flatMap_cons, List.map_cons, ih]; rfl

theorem natSheet_filter_tail (T S b r : ℕ) (hS2 : 2 ∣ S) (hbr : b + r = T)
    (hr : r ≤ S / 2) :
    (natSheet S b).filterMap (pageAt T)
      = (List.range r).map (fun k : ℕ => ((b + k : ℕ) : ℤ) + 1) := by
  have hs2 : S / 2 * 2 = S := Nat.div_mul_cancel hS2
  unfold natSheet
  rw [List.filterMap_flatMap]
  have hstep : ((List.range (S / 2)).flatMap fun i =>
        List.filterMap (pageAt T) [b + S - 1 - i, b + i])
      = (List.range (S / 2)).flatMap
        (fun i : ℕ => if i < r then [((b + i : ℕ) : ℤ) + 1] else []) := by
    apply List.flatMap_congr
    intro i hi
    rw [List.mem_range] at hi
    have hback : pageAt T (b + S - 1 - i) = none := by
      unfold pageAt
      rw [if_neg (by omega)]
    by_cases hc : i < r
    · rw [List.filterMap_cons_none hback,
        List.filterMap_cons_some (show pageAt T (b + i)
          = some (((b + i : ℕ) : ℤ) + 1) by
            unfold pageAt; rw [if_pos (by omega)]),
        List.filterMap_nil, if_pos hc]
    · rw [List.filterMap_cons_none hback,
        List.filterMap_cons_none (show pageAt T (b + i) = none by
          unfold pageAt; rw [if_neg (by omega)]),
        List.filterMap_nil, if_neg hc]
  rw [hstep]
  obtain ⟨D, hD⟩ : ∃ D, S / 2 = r + D := ⟨S / 2 - r, by omega⟩
  rw [hD, List.range_add, List.flatMap_append]
  have hfirst : ((List.range r).flatMap
        (fun i : ℕ => if i < r then [((b + i : ℕ) : ℤ) + 1] else []))
      = (List.range r).map (fun k : ℕ => ((b + k : ℕ) : ℤ) + 1) := by
    have hpos : ((List.range r).flatMap
          (fun i : ℕ => if i < r then [((b + i : ℕ) : ℤ) + 1] else []))
        = (List.range r).flatMap (fun i : ℕ => [((b + i : ℕ) : ℤ) + 1]) := by
      apply List.flatMap_congr
      intro x hx
      rw [List.mem_range] at hx
      rw [if_pos hx]
    rw [hpos, flatMap_singleton_map]
  have hsecond : ((List.range D).map (fun x => r + x)).flatMap
      (fun i : ℕ => if i < r then [((b + i : ℕ) : ℤ) + 1] else []) = [] := by
    rw [List.flatMap_eq_nil_iff]
    intro x hx
    rw [List.mem_map] at hx
    obtain ⟨a, _, rfl⟩ := hx
    rw [if_neg (by omega)]
  rw [hfirst, hsecond, List.append_nil]

theorem natAllIdx_succ (N S : ℕ) :
    natAllIdx (N + 1) S = natAllIdx N S ++ natSheet S (N * S) := by
  unfold natAllIdx
  rw [List.range_succ, List.flatMap_append, List.flatMap_cons,
    List.flatMap_nil, List.append_nil]

theorem natAllIdx_filterMap_map (q S T : ℕ) (hS2 : 2 ∣ S) (hqT : q * S ≤ T) :
    (natAllIdx q S).filterMap (pageAt T)
      = (natAllIdx q S).map (fun k : ℕ => (k : ℤ) + 1) := by
  rw [← List.filterMap_eq_map (fun k : ℕ => (k : ℤ) + 1)]
  apply List.filterMap_congr
  intro x hx
  have hx' : x < q * S := by
    have hmem := (natAllIdx_perm q S hS2).mem_iff.mp hx
    rwa [List.mem_range] at hmem
  simp only [Function.comp_apply, pageAt]
  rw [if_pos (by omega)]

theorem natAllIdx_length (q S : ℕ) (hS2 : 2 ∣ S) :
    (natAllIdx q S).length = q * S := by
  rw [(natAllIdx_perm q S hS2).length_eq, List.length_range]

theorem natAllIdx_one (S : ℕ) : natAllIdx 1 S = natSheet S 0 := by
  have h0 := natAllIdx_succ 0 S
  rw [Nat.zero_mul] at h0
  rw [h0]
  unfold natAllIdx
  rw [List.range_zero, List.flatMap_nil, List.nil_append]

/-- Valid call on an exact multiple of the signature size: no blank survives
and the output lists the slot successors along the traversal. -/
theorem calc_exact (m S : ℕ) (h4 : S % 4 = 0) (hS : 0 < S) :
    calculate_signature_order ((m * S : ℕ) : ℤ) (S : ℤ)
      = .ok ((natAllIdx m S).map (fun k : ℕ => (k : ℤ) + 1)) := by
  have hS2 : 2 ∣ S := Nat.dvd_of_mod_eq_zero (by omega)
  rw [calc_ok (m * S) S h4 hS, natSigCount_exact m S hS,
    natAllIdx_filterMap_map m S (m * S) hS2 (le_refl _)]

/-- Valid call with `1 ≤ T ≤ S / 2`: one signature, all real pages in its
front half, output in ascending order. -/
theorem calc_small (T S : ℕ) (h4 : S % 4 = 0) (hS : 0 < S) (hT1 : 1 ≤ T)
    (hTh : T ≤ S / 2) :
    calculate_signature_order (T : ℤ) (S : ℤ)
      = .ok ((List.range T).map (fun k : ℕ => (k : ℤ) + 1)) := by
  have hS2 : 2 ∣ S := Nat.dvd_of_mod_eq_zero (by omega)
  have hs2 : S / 2 * 2 = S := Nat.div_mul_cancel hS2
  have hTS : T < S := by omega
  have hmod : T % S = T := Nat.mod_eq_of_lt hTS
  have hcount : natSigCount T S = 1 := by
    rw [natSigCount_inexact T S hS (by omega), Nat.div_eq_of_lt hTS]
  rw [calc_ok T S h4 hS, hcount]
  rw [natAllIdx_one, natSheet_filter_tail T S 0 T hS2 (by omega) hTh]
  congr 1
  apply List.map_congr_left
  intro a _
  rw [Nat.zero_add]

theorem fdiv_nonpos_of_lt (a s : ℤ) (hs : 0 < s) (ha : a < s) :
    a.fdiv s ≤ 0 := by
  rw [Int.fdiv_eq_ediv _ (le_of_lt hs)]
  rcases lt_or_le a 0 with hneg | hpos
  · exact le_of_lt (Int.ediv_neg' hneg hs)
  · rw [Int.ediv_eq_zero_of_lt hpos ha]

/-! The claims. -/

/-- C1: for every `total_pages ≥ 0` and every `signature_size` that is a
positive multiple of 4, `calculate_signature_order` succeeds and returns a
list of length `total_pages` that is a permutation of `1, …, total_pages`:
every real page appears exactly once, no duplicates, no omissions, and no
blank placeholder appears in the output. -/
theorem spec_total_pages_permutation (t s : ℤ) (ht : 0 ≤ t) (hs : 0 < s)
    (h4 : s.fmod 4 = 0) :
    ∃ l : List ℤ, calculate_signature_order t s = .ok l ∧
      (l.length : ℤ) = t ∧
      l.Perm ((List.range t.toNat).map (fun k : ℕ => (k : ℤ) + 1)) := by
  obtain ⟨T, S, rfl, rfl, h4', hS⟩ := int_valid_to_nat t s ht hs h4
  have hS2 : 2 ∣ S := Nat.dvd_of_mod_eq_zero (by omega)
  have hperm : ((natAllIdx (natSigCount T S) S).filterMap (pageAt T)).Perm
      ((List.range T).map (fun k : ℕ => (k : ℤ) + 1)) := by
    have hp := (natAllIdx_perm (natSigCount T S) S hS2).filterMap (pageAt T)
    rwa [filterMap_pageAt_range T (natSigCount T S * S)
      (le_natPadded T S hS)] at hp
  refine ⟨_, calc_ok T S h4' hS, ?_, ?_⟩
  · rw [hperm.length_eq]
    simp
  · rw [Int.toNat_ofNat]
    exact hperm

theorem spec_total_pages_permutation_witness :
    ∃ l : List ℤ, calculate_signature_order 5 4 = .ok l ∧
      (l.length : ℤ) = 5 ∧
      l.Perm ((List.range (5 : ℤ).toNat).map (fun k : ℕ => (k : ℤ) + 1)) :=
  spec_total_pages_permutation 5 4 (by decide) (by decide) (by decide)

/-- C3: the function `calculate_signature_order` reports the invalid-argument error
exactly when `signature_size` is not a positive multiple of 4
(`signature_size % 4 ≠ 0` or `signature_size < 4`), for every `total_pages`;
the invalid value is never silently corrected, and a valid `signature_size`
always yields a result. -/
theorem spec_invalid_signature_size_error (t s : ℤ) :
    ((∃ msg, calculate_signature_order t s = .error msg)
      ↔ (s.fmod 4 ≠ 0 ∨ s < 4)) ∧
    (s.fmod 4 = 0 ∧ 4 ≤ s → ∃ l, calculate_signature_order t s = .ok l) := by
  constructor
  · constructor
    · rintro ⟨msg, hmsg⟩
      by_cases h1 : s.fmod 4 ≠ 0
      · exact Or.inl h1
      · by_cases h2 : s < 4
        · exact Or.inr h2
        · unfold calculate_signature_order at hmsg
          rw [if_neg h1, if_neg h2] at hmsg
          exact absurd hmsg (by simp)
    · intro h
      unfold calculate_signature_order
      by_cases h1 : s.fmod 4 ≠ 0
      · rw [if_pos h1]
        exact ⟨_, rfl⟩
      · have h2 : s < 4 := h.resolve_left h1
        rw [if_neg h1, if_pos h2]
        exact ⟨_, rfl⟩
  · rintro ⟨hf, hle⟩
    unfold calculate_signature_order
    rw [if_neg (not_not.mpr hf), if_neg (by omega)]
    exact ⟨_, rfl⟩

theorem spec_invalid_signature_size_error_witness :
    ∃ l, calculate_signature_order 0 4 = .ok l :=
  (spec_invalid_signature_size_error 0 4).2 ⟨by decide, by decide⟩

/-- C7: with any valid `signature_size`, zero pages give the empty output
and a single page gives `[1]`. -/
theorem spec_zero_and_one_page (s : ℤ) (hs : 0 < s) (h4 : s.fmod 4 = 0) :
    calculate_signature_order 0 s = .ok [] ∧
    calculate_signature_order 1 s = .ok [1] := by
  obtain ⟨S, hSeq, h4', hS⟩ : ∃ S : ℕ, s = (S : ℤ) ∧ S % 4 = 0 ∧ 0 < S := by
    obtain ⟨T, S, _, hs', h4', hS⟩ := int_valid_to_nat 0 s (le_refl 0) hs h4
    exact ⟨S, hs', h4', hS⟩
  subst hSeq
  constructor
  · rw [show (0 : ℤ) = ((0 : ℕ) : ℤ) by norm_num, calc_ok 0 S h4' hS,
      natSigCount_zero S hS]
    unfold natAllIdx
    rw [List.range_zero, List.flatMap_nil, List.filterMap_nil]
  · rw [show (1 : ℤ) = ((1 : ℕ) : ℤ) by norm_num,
      calc_small 1 S h4' hS (le_refl 1) (by omega)]
    simp [List.range_succ]

theorem spec_zero_and_one_page_witness :
    calculate_signature_order 0 8 = .ok [] ∧
    calculate_signature_order 1 8 = .ok [1] :=
  spec_zero_and_one_page 8 (by decide) (by decide)

/-- C10: for every negative `total_pages` and valid `signature_size`, the
function raises nothing and silently returns the empty list: the
`total_pages ≥ 0` precondition is never checked. -/
theorem spec_negative_total_pages_empty (t s : ℤ) (ht : t < 0) (hs : 0 < s)
    (h4 : s.fmod 4 = 0) :
    calculate_signature_order t s = .ok [] := by
  have hdvd : (4 : ℤ) ∣ s := by
    rw [Int.fmod_eq_emod _ (by norm_num : (0:ℤ) ≤ 4)] at h4
    exact Int.dvd_of_emod_eq_zero h4
  have hS4 : 4 ≤ s := Int.le_of_dvd hs hdvd
  unfold calculate_signature_order
  rw [if_neg (not_not.mpr h4), if_neg (by omega)]
  have hpad : padded_pages t s ≤ 0 := by
    unfold padded_pages
    have h1 : (t + s - 1).fdiv s ≤ 0 :=
      fdiv_nonpos_of_lt (t + s - 1) s hs (by omega)
    exact mul_nonpos_iff.mpr (Or.inr ⟨h1, le_of_lt hs⟩)
  have hstarts : signature_starts t s = [] := by
    unfold signature_starts pyRange
    have h2 : (padded_pages t s - 0 + s - 1).fdiv s ≤ 0 :=
      fdiv_nonpos_of_lt _ s hs (by omega)
    rw [Int.toNat_of_nonpos h2, List.range_zero, List.map_nil]
  unfold reordered_pages
  rw [hstarts, List.flatMap_nil, List.filterMap_nil]

theorem spec_negative_total_pages_empty_witness :
    calculate_signature_order (-3) 8 = .ok [] :=
  spec_negative_total_pages_empty (-3) 8 (by decide) (by decide) (by decide)

/-- C2: when `total_pages` is an exact multiple of a valid `signature_size`,
the output is the concatenation, over signatures in increasing start order,
of the per-signature sequence that for each sheet `i` emits first the page at
local back position `s - 1 - i`, then the page at local front position `i`
(the page at local position `p` of the `j`-th signature being `j*s + p + 1`);
in particular for `(4, 4)` and `(8, 8)`. -/
theorem spec_exact_multiple_sheet_order :
    (∀ t s : ℤ, 0 ≤ t → 0 < s → s.fmod 4 = 0 → s ∣ t →
      calculate_signature_order t s = .ok
        ((List.range (t.toNat / s.toNat)).flatMap (fun j : ℕ =>
          (List.range (s.toNat / 2)).flatMap (fun i : ℕ =>
            [(j : ℤ) * s + (s - 1 - (i : ℤ)) + 1,
             (j : ℤ) * s + (i : ℤ) + 1])))) ∧
    calculate_signature_order 4 4 = .ok [4, 1, 3, 2] ∧
    calculate_signature_order 8 8 = .ok [8, 1, 7, 2, 6, 3, 5, 4] := by
  refine ⟨?_, by decide, by decide⟩
  intro t s ht hs h4 hdvd
  obtain ⟨T, S, rfl, rfl, h4', hS⟩ := int_valid_to_nat t s ht hs h4
  have hS2 : 2 ∣ S := Nat.dvd_of_mod_eq_zero (by omega)
  have hs2 : S / 2 * 2 = S := Nat.div_mul_cancel hS2
  have hdvd' : S ∣ T := by exact_mod_cast hdvd
  obtain ⟨m, hm⟩ := hdvd'
  have hm' : T = m * S := by rw [hm, Nat.mul_comm]
  subst hm'
  rw [calc_exact m S h4' hS, Int.toNat_ofNat, Int.toNat_ofNat]
  rw [Nat.mul_div_cancel m hS]
  congr 1
  unfold natAllIdx
  rw [List.map_flatMap]
  apply List.flatMap_congr
  intro j hj
  rw [List.mem_range] at hj
  unfold natSheet
  rw [List.map_flatMap]
  apply List.flatMap_congr
  intro i hi
  rw [List.mem_range] at hi
  show ([((j * S + S - 1 - i : ℕ) : ℤ) + 1, ((j * S + i : ℕ) : ℤ) + 1] : List ℤ)
      = [(j : ℤ) * (S : ℤ) + ((S : ℤ) - 1 - (i : ℤ)) + 1,
         (j : ℤ) * (S : ℤ) + (i : ℤ) + 1]
  rw [← Nat.cast_mul]
  simp only [List.cons.injEq, and_true]
  constructor
  · generalize j * S = B
    omega
  · generalize j * S = B
    omega

theorem spec_exact_multiple_sheet_order_witness :
    calculate_signature_order 8 4 = .ok
      ((List.range ((8 : ℤ).toNat / (4 : ℤ).toNat)).flatMap (fun j : ℕ =>
        (List.range ((4 : ℤ).toNat / 2)).flatMap (fun i : ℕ =>
          [(j : ℤ) * 4 + ((4 : ℤ) - 1 - (i : ℤ)) + 1,
           (j : ℤ) * 4 + (i : ℤ) + 1]))) :=
  spec_exact_multiple_sheet_order.1 8 4 (by decide) (by decide) (by decide)
    ⟨2, by decide⟩

/-- C5: with a fixed valid `signature_size` and `total_pages = 2*s`, the
first `s` output entries equal `calculate_signature_order s s` and the last
`s` entries equal the same list with `s` added to every value: signatures
are computed independently of each other. -/
theorem spec_signature_independence (s : ℤ) (hs : 0 < s) (h4 : s.fmod 4 = 0) :
    ∃ l₁ l₂ : List ℤ, calculate_signature_order s s = .ok l₁ ∧
      calculate_signature_order (2 * s) s = .ok l₂ ∧
      l₂.take s.toNat = l₁ ∧
      l₂.drop s.toNat = l₁.map (fun p => p + s) := by
  obtain ⟨S, hSeq, h4', hS⟩ : ∃ S : ℕ, s = (S : ℤ) ∧ S % 4 = 0 ∧ 0 < S := by
    obtain ⟨T, S, _, hs', h4', hS⟩ := int_valid_to_nat 0 s (le_refl 0) hs h4
    exact ⟨S, hs', h4', hS⟩
  subst hSeq
  have hS2 : 2 ∣ S := Nat.dvd_of_mod_eq_zero (by omega)
  have hc1 : calculate_signature_order (S : ℤ) (S : ℤ)
      = .ok ((natAllIdx 1 S).map (fun k : ℕ => (k : ℤ) + 1)) := by
    have h := calc_exact 1 S h4' hS
    rwa [Nat.one_mul] at h
  have hc2 : calculate_signature_order (2 * (S : ℤ)) (S : ℤ)
      = .ok ((natAllIdx 2 S).map (fun k : ℕ => (k : ℤ) + 1)) := by
    have h := calc_exact 2 S h4' hS
    rwa [show ((2 * S : ℕ) : ℤ) = 2 * (S : ℤ) from by push_cast; ring] at h
  have hsplit : natAllIdx 2 S = natSheet S 0 ++ natSheet S S := by
    have h21 := natAllIdx_succ 1 S
    rw [Nat.one_mul, natAllIdx_one] at h21
    exact h21
  have hlen : ((natSheet S 0).map (fun k : ℕ => (k : ℤ) + 1)).length = S := by
    rw [List.length_map, natSheet_length S 0 hS2]
  refine ⟨_, _, hc1, hc2, ?_, ?_⟩
  · rw [natAllIdx_one, hsplit, List.map_append, Int.toNat_ofNat,
      List.take_left' hlen]
  · rw [natAllIdx_one, hsplit, List.map_append, Int.toNat_ofNat,
      List.drop_left' hlen]
    rw [natSheet_shift S S, List.map_map, List.map_map]
    apply List.map_congr_left
    intro a _
    simp only [Function.comp_apply]
    push_cast
    ring

theorem spec_signature_independence_witness :
    ∃ l₁ l₂ : List ℤ, calculate_signature_order 4 4 = .ok l₁ ∧
      calculate_signature_order (2 * 4) 4 = .ok l₂ ∧
      l₂.take (4 : ℤ).toNat = l₁ ∧
      l₂.drop (4 : ℤ).toNat = l₁.map (fun p => p + 4) :=
  spec_signature_independence 4 (by decide) (by decide)

/-- C6: when `1 ≤ total_pages ≤ signature_size / 2` with a valid
`signature_size`, the single padded signature filters all blanks correctly
and the output is exactly `[1, …, total_pages]` in ascending order; in
particular `calculate_signature_order 2 40 = [1, 2]`. -/
theorem spec_large_padding_single_signature :
    (∀ t s : ℤ, 1 ≤ t → 0 < s → s.fmod 4 = 0 → t ≤ s.fdiv 2 →
      calculate_signature_order t s
        = .ok ((List.range t.toNat).map (fun k : ℕ => (k : ℤ) + 1))) ∧
    calculate_signature_order 2 40 = .ok [1, 2] := by
  refine ⟨?_, by decide⟩
  intro t s ht hs h4 hth
  obtain ⟨T, S, rfl, rfl, h4', hS⟩ := int_valid_to_nat t s (by omega) hs h4
  have hth' : T ≤ S / 2 := by
    rw [show ((S : ℤ)).fdiv 2 = ((S / 2 : ℕ) : ℤ) from by
      rw [show (2 : ℤ) = ((2 : ℕ) : ℤ) by norm_num, ← Int.ofNat_fdiv]] at hth
    exact_mod_cast hth
  have hT1 : 1 ≤ T := by exact_mod_cast ht
  rw [calc_small T S h4' hS hT1 hth', Int.toNat_ofNat]

/-- C4 counterexample: at `total_pages = 3`, `signature_size = 4` (three real
pages in the final — and only — partial signature, more than `s / 2 = 2`),
the output is `[1, 3, 2]`: the real pages of the final partial signature do
not appear in ascending order, contradicting the claim as stated. -/
theorem spec_partial_tail_counterexample :
    calculate_signature_order 3 4 = .ok [1, 3, 2] ∧
    ¬ List.Sorted (· < ·) ([1, 3, 2] : List ℤ) := by
  constructor
  · decide
  · decide

/-- C4 (amended): when `total_pages` is not an exact multiple of a valid
`signature_size` and the remainder `total_pages % signature_size` is at most
`signature_size / 2` (all real pages of the final partial signature sit on
front faces), the final signature's real pages appear at the end of the
output in their natural ascending order; in particular for `(12, 8)` and
`(6, 4)`. -/
theorem spec_partial_tail_ascending :
    (∀ t s : ℤ, 0 ≤ t → 0 < s → s.fmod 4 = 0 → t.fmod s ≠ 0 →
      t.fmod s ≤ s.fdiv 2 →
      ∃ l : List ℤ, calculate_signature_order t s = .ok l ∧
        l.drop (t.toNat - (t.fmod s).toNat)
          = (List.range (t.fmod s).toNat).map
              (fun k : ℕ => t - t.fmod s + (k : ℤ) + 1)) ∧
    calculate_signature_order 12 8
      = .ok [8, 1, 7, 2, 6, 3, 5, 4, 9, 10, 11, 12] ∧
    calculate_signature_order 6 4 = .ok [4, 1, 3, 2, 5, 6] := by
  refine ⟨?_, by decide, by decide⟩
  intro t s ht hs h4 hr0 hrh
  obtain ⟨T, S, rfl, rfl, h4', hS⟩ := int_valid_to_nat t s ht hs h4
  have hS2 : 2 ∣ S := Nat.dvd_of_mod_eq_zero (by omega)
  have hs2 : S / 2 * 2 = S := Nat.div_mul_cancel hS2
  have hfmod : ((T : ℤ)).fmod (S : ℤ) = ((T % S : ℕ) : ℤ) :=
    (Int.ofNat_fmod T S).symm
  have hr0' : T % S ≠ 0 := by
    intro hc
    exact hr0 (by rw [hfmod, hc, Nat.cast_zero])
  have hrh' : T % S ≤ S / 2 := by
    rw [hfmod, show ((S : ℤ)).fdiv 2 = ((S / 2 : ℕ) : ℤ) from by
      rw [show (2 : ℤ) = ((2 : ℕ) : ℤ) by norm_num, ← Int.ofNat_fdiv]] at hrh
    exact_mod_cast hrh
  have hdm := Nat.div_add_mod T S
  rw [Nat.mul_comm] at hdm
  have hamt : T / S * S = T - T % S := by omega
  have hcount : natSigCount T S = T / S + 1 := natSigCount_inexact T S hS hr0'
  have hdecomp : natAllIdx (T / S + 1) S
      = natAllIdx (T / S) S ++ natSheet S (T - T % S) := by
    rw [natAllIdx_succ, hamt]
  have hfront : (natAllIdx (T / S) S).filterMap (pageAt T)
      = (natAllIdx (T / S) S).map (fun k : ℕ => (k : ℤ) + 1) :=
    natAllIdx_filterMap_map (T / S) S T hS2 (Nat.div_mul_le_self T S)
  have hfrontlen : ((natAllIdx (T / S) S).map
      (fun k : ℕ => (k : ℤ) + 1)).length = T - T % S := by
    rw [List.length_map, natAllIdx_length _ _ hS2, hamt]
  have htail : (natSheet S (T - T % S)).filterMap (pageAt T)
      = (List.range (T % S)).map
          (fun k : ℕ => ((T - T % S + k : ℕ) : ℤ) + 1) :=
    natSheet_filter_tail T S (T - T % S) (T % S) hS2 (by omega) hrh'
  refine ⟨_, by
    rw [calc_ok T S h4' hS, hcount, hdecomp, List.filterMap_append, hfront,
      htail], ?_⟩
  rw [hfmod, Int.toNat_ofNat, Int.toNat_ofNat, List.drop_left' hfrontlen]
  apply List.map_congr_left
  intro a _
  omega

theorem spec_partial_tail_ascending_witness :
    ∃ l : List ℤ, calculate_signature_order 12 8 = .ok l ∧
      l.drop ((12 : ℤ).toNat - ((12 : ℤ).fmod 8).toNat)
        = (List.range ((12 : ℤ).fmod 8).toNat).map
            (fun k : ℕ => (12 : ℤ) - (12 : ℤ).fmod 8 + (k : ℤ) + 1) :=
  spec_partial_tail_ascending.1 12 8 (by decide) (by decide) (by decide)
    (by decide) (by decide)

/-- C8: on every input satisfying the documented precondition
(`total_pages ≥ 0`, `signature_size` a positive multiple of 4), the core
function and the legacy copy in `section_binding.py` compute identical
lists; the legacy copy merely omits the validation. -/
theorem spec_core_legacy_equivalence (t s : ℤ) (ht : 0 ≤ t) (hs : 0 < s)
    (h4 : s.fmod 4 = 0) :
    calculate_signature_order t s
      = .ok (SectionBinding.calculate_signature_order t s) := by
  have hdvd : (4 : ℤ) ∣ s := by
    rw [Int.fmod_eq_emod _ (by norm_num : (0 : ℤ) ≤ 4)] at h4
    exact Int.dvd_of_emod_eq_zero h4
  have hS4 : 4 ≤ s := Int.le_of_dvd hs hdvd
  unfold calculate_signature_order
  rw [if_neg (not_not.mpr h4), if_neg (by omega)]
  rfl

theorem spec_core_legacy_equivalence_witness :
    calculate_signature_order 10 4
      = .ok (SectionBinding.calculate_signature_order 10 4) :=
  spec_core_legacy_equivalence 10 4 (by decide) (by decide) (by decide)

/-- C9: for valid inputs the padded `pages` list has length exactly
`padded_pages`, every `left_page`/`right_page` position computed by the
loops lies inside `[0, padded_pages)` — so the two bounds guards are always
true and every list access is in range — and each signature contributes
exactly `signature_size` slots before blanks are filtered. -/
theorem spec_bounds_guards_safe (t s : ℤ) (ht : 0 ≤ t) (hs : 0 < s)
    (h4 : s.fmod 4 = 0) :
    ((build_pages t s).length : ℤ) = padded_pages t s ∧
    (∀ b ∈ signature_starts t s, ∀ i ∈ sheet_indices s,
      (0 ≤ b + i ∧ b + i < ((build_pages t s).length : ℤ)) ∧
      (0 ≤ b + s - 1 - i ∧
        b + s - 1 - i < ((build_pages t s).length : ℤ))) ∧
    (∀ b ∈ signature_starts t s,
      (signature_order_for (build_pages t s) s b).length = s.toNat) := by
  obtain ⟨T, S, rfl, rfl, h4', hS⟩ := int_valid_to_nat t s ht hs h4
  have hS2 : 2 ∣ S := Nat.dvd_of_mod_eq_zero (by omega)
  have hs2 : S / 2 * 2 = S := Nat.div_mul_cancel hS2
  have hlen : (build_pages ((T : ℕ) : ℤ) ((S : ℕ) : ℤ)).length
      = natPadded T S := by
    rw [build_pages_eq T S hS, List.length_map, List.length_range]
  refine ⟨?_, ?_, ?_⟩
  · rw [hlen, padded_pages_eq T S hS]
  · intro b hb i hi
    rw [signature_starts_eq T S hS, List.mem_map] at hb
    obtain ⟨j, hj, rfl⟩ := hb
    rw [List.mem_range] at hj
    rw [sheet_indices_eq S, List.mem_map] at hi
    obtain ⟨i', hi', rfl⟩ := hi
    rw [List.mem_range] at hi'
    rw [hlen]
    have hineq : j * S + S ≤ natSigCount T S * S := by
      have h1 := Nat.mul_le_mul_right S hj
      rwa [Nat.succ_mul] at h1
    unfold natPadded
    constructor
    · constructor <;> omega
    · constructor <;> omega
  · intro b hb
    rw [signature_starts_eq T S hS, List.mem_map] at hb
    obtain ⟨j, hj, rfl⟩ := hb
    rw [List.mem_range] at hj
    have hineq : j * S + S ≤ natSigCount T S * S := by
      have h1 := Nat.mul_le_mul_right S hj
      rwa [Nat.succ_mul] at h1
    rw [signature_order_for_eq T S (j * S) hS hS2 hineq, List.length_map,
      natSheet_length S _ hS2, Int.toNat_ofNat]

theorem spec_bounds_guards_safe_witness :
    ((build_pages 10 4).length : ℤ) = padded_pages 10 4 ∧
    (∀ b ∈ signature_starts 10 4, ∀ i ∈ sheet_indices 4,
      (0 ≤ b + i ∧ b + i < ((build_pages 10 4).length : ℤ)) ∧
      (0 ≤ b + 4 - 1 - i ∧
        b + 4 - 1 - i < ((build_pages 10 4).length : ℤ))) ∧
    (∀ b ∈ signature_starts 10 4,
      (signature_order_for (build_pages 10 4) 4 b).length = (4 : ℤ).toNat) :=
  spec_bounds_guards_safe 10 4 (by decide) (by decide) (by decide)

theorem spec_large_padding_single_signature_witness :
    calculate_signature_order 3 40
      = .ok ((List.range (3 : ℤ).toNat).map (fun k : ℕ => (k : ℤ) + 1)) :=
  spec_large_padding_single_signature.1 3 40 (by decide) (by decide)
    (by decide) (by decide)
